import Mathlib

/-!
Verification of the SpartanHub resource-catalog logic: the Filter Engine and
popular ranking (`src/App.tsx`), the Tag Registry and Admin Form Controller
(`src/components/AdminConsole.tsx`), and the Preview Resolver
(the resource viewer modal component).

The TypeScript code is shallowly embedded: JavaScript strings become `String`,
arrays become `List`, numbers become `Nat`, nullable values become `Option`,
and the platform primitives the code relies on (`String.prototype.includes`,
`trim`, `toLowerCase`, `split`, `replace`, `Array.prototype.sort` stability,
`new Set`, `Map.get`, the WHATWG `URL` constructor, `URLSearchParams.get`,
`encodeURIComponent`) are modelled explicitly below by structural recursion
over character lists, so every definition evaluates inside the kernel.
-/

namespace SpartanHub

/-! ### Models of the JavaScript string primitives -/

/-- Does `l` start with `pat`? (list-of-characters core of `startsWith`). -/
def startsWithList (l pat : List Char) : Bool :=
  match l, pat with
  | _, [] => true
  | [], _ :: _ => false
  | c :: cs, p :: ps => decide (c = p) && startsWithList cs ps

/-- Does `pat` occur in `l` (at any position)? Helper for `jsIncludes`. -/
def containsListAux (pat : List Char) : List Char → Bool
  | [] => false
  | c :: rest => startsWithList (c :: rest) pat || containsListAux pat rest

/-- Model of `String.prototype.includes`: substring occurrence, with the empty
pattern matching everywhere. -/
def jsIncludes (s sub : String) : Bool :=
  if sub = "" then true else containsListAux sub.data s.data

/-- Model of `String.prototype.toLowerCase` (ASCII letters, the only case the
embedded code distinguishes). -/
def jsToLower (s : String) : String :=
  String.mk (s.data.map Char.toLower)

/-- Model of `String.prototype.trim`: strip leading and trailing whitespace. -/
def jsTrim (s : String) : String :=
  String.mk (((s.data.dropWhile Char.isWhitespace).reverse.dropWhile Char.isWhitespace).reverse)

/-- Split a character list at every occurrence of the single character `c`
(model of `String.prototype.split` with a one-character separator, which is
the only form the embedded code uses: `split("?")`, `split("/")`). -/
def splitChar (c : Char) : List Char → List (List Char)
  | [] => [[]]
  | x :: xs =>
    let parts := splitChar c xs
    if x = c then [] :: parts
    else
      match parts with
      | p :: ps => (x :: p) :: ps
      | [] => [[x]]

/-- Does `l` end with `pat`? -/
def endsWithList (l pat : List Char) : Bool :=
  startsWithList l.reverse pat.reverse

/-- Replace the first occurrence of `pat` by `repl`
(model of `String.prototype.replace` with a string pattern). -/
def replaceFirstList (pat repl : List Char) : List Char → List Char
  | [] => []
  | c :: rest =>
    if pat ≠ [] && startsWithList (c :: rest) pat then
      repl ++ rest.drop (pat.length - 1)
    else c :: replaceFirstList pat repl rest

/-- String wrapper for `replaceFirstList`. -/
def jsReplaceFirst (s pat repl : String) : String :=
  String.mk (replaceFirstList pat.data repl.data s.data)

/-! ### Data model -/

/-- Modelled from the spec: the `ResourceType` enumeration of `types.ts`
(the file itself is not shipped under `src/`; the spec fixes the eight
members PDF, VIDEO, LINK, DOC, IMAGE, PRESENTATION, SPREADSHEET, CODE). -/
inductive ResourceType where
  | PDF | VIDEO | LINK | DOC | IMAGE | PRESENTATION | SPREADSHEET | CODE
deriving DecidableEq

/-- Modelled from the spec: string value of each `ResourceType` member
(`types.ts` is not under `src/`; the dashboard compares `res.type` with the
type-filter string, so the enum members carry their own names as values). -/
def ResourceType.toStr : ResourceType → String
  | .PDF => "PDF"
  | .VIDEO => "VIDEO"
  | .LINK => "LINK"
  | .DOC => "DOC"
  | .IMAGE => "IMAGE"
  | .PRESENTATION => "PRESENTATION"
  | .SPREADSHEET => "SPREADSHEET"
  | .CODE => "CODE"

/-- The `status` field: `online` or `offline`. -/
inductive Status where
  | online | offline
deriving DecidableEq

/-- The `Resource` record of the data model (`types.ts` via the spec; the
fields are exactly the ones the embedded code reads).  Nullable string fields
(`url`, `external_url`) are modelled as `String` with `""` for null — every
embedded use first coalesces them with `|| ""` or `?.trim()`. -/
structure Resource where
  id : String := ""
  title : String := ""
  description : String := ""
  type : ResourceType := .PDF
  department : String := ""
  subject : String := ""
  level : String := ""
  tags : List String := []
  dateAdded : String := ""
  url : String := ""
  external_url : String := ""
  original_filename : String := ""
  status : Status := .online
  relatedResourceIds : List String := []
  views : Nat := 0
  downloads : Nat := 0
deriving DecidableEq

/-! ### Filter Engine (`src/App.tsx`, lines 463–486) -/

/-- The filter predicate of `filteredResources` in `src/App.tsx`
(lines 463–479): online-only visibility, case-insensitive substring search
over title/description/tags, exact type match unless the filter is `"All"`,
membership in the selected-subject set unless it is empty, and exact level
match unless the filter is `"All"`. -/
def matchesFilters (searchTerm activeFilter : String) (selectedSubjects : List String)
    (selectedLevel : String) (res : Resource) : Bool :=
  if res.status ≠ Status.online then false
  else
    let q := jsToLower searchTerm
    let matchesSearch :=
      jsIncludes (jsToLower res.title) q || jsIncludes (jsToLower res.description) q ||
        res.tags.any (fun t => jsIncludes (jsToLower t) q)
    let matchesType := decide (activeFilter = "All") || decide (res.type.toStr = activeFilter)
    let matchesSubject := selectedSubjects.isEmpty || decide (res.subject ∈ selectedSubjects)
    let matchesLevel := decide (selectedLevel = "All") || decide (res.level = selectedLevel)
    matchesSearch && matchesType && matchesSubject && matchesLevel

/-- Function `filteredResources` of `src/App.tsx`: the Filter Engine. -/
def filteredResources (resources : List Resource) (searchTerm activeFilter : String)
    (selectedSubjects : List String) (selectedLevel : String) : List Resource :=
  resources.filter (matchesFilters searchTerm activeFilter selectedSubjects selectedLevel)

theorem jsToLower_empty : jsToLower "" = "" := rfl

theorem jsIncludes_empty (s : String) : jsIncludes s "" = true := by
  simp [jsIncludes]

/-- C1: With empty search term, type filter `"All"`, empty subject set and
level filter `"All"`, the Filter Engine returns exactly the online subset of
the catalog, in the original order. -/
theorem filterEngine_default_view_is_online_subset (resources : List Resource) :
    filteredResources resources "" "All" [] "All" =
      resources.filter (fun r => decide (r.status = Status.online)) := by
  unfold filteredResources
  apply List.filter_congr
  intro r _
  by_cases h : r.status = Status.online
  · simp [matchesFilters, h, jsToLower_empty, jsIncludes_empty]
  · simp [matchesFilters, h]

/-! ### Popular ranking (`src/App.tsx`, lines 481–486 and 994) -/

/-- The comparator `(a, b) => b.views - a.views` of `popularResources` orders
`a` before `b` exactly when `b.views ≤ a.views` (descending by views). -/
def viewsGE (a b : Resource) : Prop := b.views ≤ a.views

instance : DecidableRel viewsGE :=
  fun a b => inferInstanceAs (Decidable (b.views ≤ a.views))

instance : IsTotal Resource viewsGE :=
  ⟨fun a b => Nat.le_total b.views a.views⟩

instance : IsTrans Resource viewsGE :=
  ⟨fun _ _ _ hab hbc => le_trans hbc hab⟩

/-- The pre-ranking filter of `popularResources`:
`r.status === online && r.views > 0`. -/
def onlineWithViews (l : List Resource) : List Resource :=
  l.filter (fun r => decide (r.status = Status.online) && decide (0 < r.views))

/-- Model of `Array.prototype.sort` with the comparator
`(a, b) => b.views - a.views`.  ECMAScript guarantees the sort is stable, so
it is embedded as a stable insertion sort along `viewsGE`; the stability,
sortedness and permutation facts proved below are exactly what pins this
embedding to the JavaScript semantics. -/
def sortByViewsDesc (l : List Resource) : List Resource :=
  List.insertionSort viewsGE l

/-- Function `popularResources` of `src/App.tsx`: online resources with at least one
view, sorted descending by views (stable), truncated to the first 4. -/
def popularResources (l : List Resource) : List Resource :=
  (sortByViewsDesc (onlineWithViews l)).take 4

/-- The four dashboard filter states that `isDefaultView` inspects. -/
structure DashboardState where
  searchTerm : String := ""
  activeFilter : String := "All"
  selectedSubjects : List String := []
  selectedLevel : String := "All"

/-- Function `isDefaultView` of `src/App.tsx` (line 486):
`!searchTerm`, type filter `All`, no selected subjects and level filter `All`. -/
def isDefaultView (st : DashboardState) : Bool :=
  decide (st.searchTerm = "") && decide (st.activeFilter = "All") &&
    st.selectedSubjects.isEmpty && decide (st.selectedLevel = "All")

/-- Render condition of the Popular Resources section (`src/App.tsx`,
line 994): `isDefaultView && popularResources.length > 0`. -/
def showPopularSection (st : DashboardState) (resources : List Resource) : Bool :=
  isDefaultView st && decide (0 < (popularResources resources).length)

theorem filter_views_orderedInsert (v : Nat) (a : Resource) (l : List Resource) :
    (List.orderedInsert viewsGE a l).filter (fun r => decide (r.views = v)) =
      if a.views = v then a :: l.filter (fun r => decide (r.views = v))
      else l.filter (fun r => decide (r.views = v)) := by
  induction l with
  | nil => by_cases h : a.views = v <;> simp [h]
  | cons b t ih =>
    by_cases hr : viewsGE a b
    · by_cases ha : a.views = v <;> simp [List.orderedInsert, hr, ha]
    · rw [List.orderedInsert, if_neg hr]
      by_cases ha : a.views = v
      · have hbv : ¬ b.views = v := fun hbv => hr (by simp [viewsGE, hbv, ha])
        simp [List.filter_cons, ha, hbv, ih]
      · simp [List.filter_cons, ha, ih]

theorem filter_views_insertionSort (v : Nat) (l : List Resource) :
    (List.insertionSort viewsGE l).filter (fun r => decide (r.views = v)) =
      l.filter (fun r => decide (r.views = v)) := by
  induction l with
  | nil => rfl
  | cons a t ih =>
    rw [List.insertionSort, filter_views_orderedInsert]
    by_cases h : a.views = v <;> simp [h, ih, List.filter_cons]

/-- C5: The popular ranking is: online resources with `views > 0`, sorted
descending by `views` with ties kept in catalog order (the sort is a stable
sort: it is a permutation, sorted along `viewsGE`, and preserves the relative
order of every tie class), truncated to the first 4; and the Popular
Resources section is rendered only in the default view (empty search, type
`"All"`, empty subject set, level `"All"`). -/
theorem popularRanking_spec (l : List Resource) :
    popularResources l = (sortByViewsDesc (onlineWithViews l)).take 4 ∧
    List.Sorted viewsGE (sortByViewsDesc (onlineWithViews l)) ∧
    (sortByViewsDesc (onlineWithViews l)).Perm (onlineWithViews l) ∧
    (∀ v : Nat, (sortByViewsDesc (onlineWithViews l)).filter (fun r => decide (r.views = v)) =
      (onlineWithViews l).filter (fun r => decide (r.views = v))) ∧
    (∀ r ∈ popularResources l, r.status = Status.online ∧ 0 < r.views) ∧
    (popularResources l).length ≤ 4 ∧
    (∀ st : DashboardState, showPopularSection st l = true → isDefaultView st = true) := by
  refine ⟨rfl, List.sorted_insertionSort viewsGE _, List.perm_insertionSort viewsGE _,
    fun v => filter_views_insertionSort v _, ?_, ?_, ?_⟩
  · intro r hr
    have hmem : r ∈ onlineWithViews l := by
      have h1 : r ∈ sortByViewsDesc (onlineWithViews l) := List.mem_of_mem_take hr
      exact ((List.perm_insertionSort viewsGE _).mem_iff).mp h1
    have := (List.mem_filter.mp hmem).2
    simpa using this
  · exact List.length_take_le 4 _
  · intro st h
    exact (Bool.and_eq_true _ _ |>.mp h).1

/-- Witness for C5: a concrete default-view state and one-resource catalog
where the Popular section is shown, instantiating the theorem. -/
theorem popularRanking_spec_witness :
    showPopularSection {} [{ views := 3 }] = true ∧ isDefaultView ({} : DashboardState) = true :=
  ⟨by decide, (popularRanking_spec [{ views := 3 }]).2.2.2.2.2.2 {} (by decide)⟩

/-! ### Tag Registry (`src/components/AdminConsole.tsx`, lines 66–74 and
369–414; batch apply in `src/App.tsx`, lines 239–244) -/

/-- Function `rawTags`: `resources.reduce((acc, r) => acc.concat(r.tags), [])` —
all tag occurrences in catalog order. -/
def rawTags : List Resource → List String
  | [] => []
  | r :: rs => r.tags ++ rawTags rs

/-- Model of `Array.from(new Set(xs))` for strings: keep the first occurrence
of each element, in encounter order. -/
def jsSetDedup : List String → List String
  | [] => []
  | x :: xs => x :: (jsSetDedup xs).filter (fun t => decide (t ≠ x))

/-- Function `uniqueTags`: `Array.from(new Set(rawTags)).sort()`.  The default
JavaScript sort compares strings by code units; it is embedded as a stable
insertion sort along the lexicographic `≤` on strings. -/
def uniqueTags (l : List Resource) : List String :=
  List.insertionSort (· ≤ ·) (jsSetDedup (rawTags l))

/-- Entry `tagCounts[tag]`: the `reduce` over `rawTags` increments one counter per
occurrence, so the entry for `tag` holds the occurrence count. -/
def tagCounts (l : List Resource) (tag : String) : Nat :=
  (rawTags l).count tag

/-- Whether the `tagCounts` record has an entry for `tag`: the `reduce` only
creates keys for elements of `rawTags`. -/
def hasTagEntry (l : List Resource) (tag : String) : Bool :=
  decide (tag ∈ rawTags l)

/-- The per-resource update of `handleDeleteTag`:
`tags.filter(t => t !== tagToDelete)`. -/
def removeTag (tag : String) (r : Resource) : Resource :=
  { r with tags := r.tags.filter (fun t => decide (t ≠ tag)) }

/-- Function `handleDeleteTag`: the list of updated resources submitted to
`onBatchUpdate` (one entry per resource whose tags contain `tag`). -/
def deleteTagUpdates (tag : String) (l : List Resource) : List Resource :=
  l.filterMap (fun r => if tag ∈ r.tags then some (removeTag tag r) else none)

/-- The per-resource update of `handleRenameTag`: map `old` to `newName`,
then `Array.from(new Set(...))`. -/
def applyRename (old newName : String) (r : Resource) : Resource :=
  { r with tags := jsSetDedup (r.tags.map (fun t => if t = old then newName else t)) }

/-- Function `handleRenameTag`: no updates when the new name trims to empty or equals
the original untrimmed; otherwise one update per resource containing `old`,
renaming to the trimmed new name and deduplicating. -/
def renameTagUpdates (original current : String) (l : List Resource) : List Resource :=
  if jsTrim current = "" ∨ current = original then []
  else
    l.filterMap (fun r =>
      if original ∈ r.tags then some (applyRename original (jsTrim current) r) else none)

/-- Model of `Map.get` on a `Map` built from `updates.map(r => [r.id, r])`:
later entries overwrite earlier ones, so the last matching record wins. -/
def jsMapGet (updates : List Resource) (id : String) : Option Resource :=
  match updates with
  | [] => none
  | x :: xs =>
    match jsMapGet xs id with
    | some y => some y
    | none => if x.id = id then some x else none

/-- Function `handleBatchUpdateResources` of `src/App.tsx`:
`prev.map(r => updateMap.get(r.id) || r)`. -/
def applyBatchUpdate (prev updates : List Resource) : List Resource :=
  prev.map (fun r => (jsMapGet updates r.id).getD r)

theorem mem_rawTags {t : String} : ∀ {l : List Resource}, t ∈ rawTags l ↔ ∃ r ∈ l, t ∈ r.tags
  | [] => by simp [rawTags]
  | r :: rs => by
    simp [rawTags, List.mem_append, mem_rawTags (l := rs)]

theorem filterMap_if_eq_map_filter {β : Type} (p : Resource → Prop) [DecidablePred p]
    (f : Resource → β) (l : List Resource) :
    l.filterMap (fun r => if p r then some (f r) else none) =
      (l.filter (fun r => decide (p r))).map f := by
  induction l with
  | nil => rfl
  | cons r rs ih =>
    by_cases h : p r <;> simp [List.filterMap_cons, List.filter_cons, h, ih]

theorem jsMapGet_mem {updates : List Resource} {id : String} {x : Resource}
    (h : jsMapGet updates id = some x) : x ∈ updates := by
  induction updates with
  | nil => simp [jsMapGet] at h
  | cons u us ih =>
    rw [jsMapGet] at h
    cases hrec : jsMapGet us id with
    | some y =>
      rw [hrec] at h
      exact List.mem_cons_of_mem _ (ih (hrec.trans h))
    | none =>
      rw [hrec] at h
      by_cases hid : u.id = id
      · rw [if_pos hid] at h
        exact (Option.some_inj.mp h) ▸ List.mem_cons_self u us
      · rw [if_neg hid] at h
        exact absurd h (by simp)

theorem jsMapGet_isSome {updates : List Resource} {id : String}
    (h : ∃ u ∈ updates, u.id = id) : ∃ x, jsMapGet updates id = some x := by
  induction updates with
  | nil => simp at h
  | cons u us ih =>
    rw [jsMapGet]
    cases hrec : jsMapGet us id with
    | some y => exact ⟨y, rfl⟩
    | none =>
      obtain ⟨w, hw, hwid⟩ := h
      rcases List.mem_cons.mp hw with hwu | hwus
      · subst hwu
        exact ⟨w, by simp [hwid]⟩
      · obtain ⟨x, hx⟩ := ih ⟨w, hwus, hwid⟩
        exact absurd hx (by simp [hrec])

theorem jsMapGet_cons_ne {u : Resource} {us : List Resource} {id : String}
    (h : u.id ≠ id) : jsMapGet (u :: us) id = jsMapGet us id := by
  rw [jsMapGet]
  cases hrec : jsMapGet us id with
  | some y => rfl
  | none => simp [h]

theorem jsMapGet_none {updates : List Resource} {id : String}
    (h : ∀ u ∈ updates, u.id ≠ id) : jsMapGet updates id = none := by
  induction updates with
  | nil => rfl
  | cons u us ih =>
    rw [jsMapGet_cons_ne (h u (List.mem_cons_self u us)),
      ih (fun v hv => h v (List.mem_cons_of_mem _ hv))]

theorem deleteTagUpdates_id_mem {tag : String} {l : List Resource} {u : Resource}
    (h : u ∈ deleteTagUpdates tag l) : u.id ∈ l.map (fun r => r.id) := by
  obtain ⟨r, hr, hru⟩ := List.mem_filterMap.mp h
  by_cases hmem : tag ∈ r.tags
  · rw [if_pos hmem] at hru
    have : u = removeTag tag r := (Option.some_inj.mp hru).symm
    subst this
    exact List.mem_map.mpr ⟨r, hr, rfl⟩
  · rw [if_neg hmem] at hru
    exact absurd hru (by simp)

theorem deleteTagUpdates_tag_free {tag : String} {l : List Resource} {u : Resource}
    (h : u ∈ deleteTagUpdates tag l) : tag ∉ u.tags := by
  obtain ⟨r, hr, hru⟩ := List.mem_filterMap.mp h
  by_cases hmem : tag ∈ r.tags
  · rw [if_pos hmem] at hru
    have : u = removeTag tag r := (Option.some_inj.mp hru).symm
    subst this
    simp [removeTag]
  · rw [if_neg hmem] at hru
    exact absurd hru (by simp)

theorem applyBatchUpdate_deleteTag_nodup (tag : String) :
    ∀ l : List Resource, (l.map (fun r => r.id)).Nodup →
      applyBatchUpdate l (deleteTagUpdates tag l) = l.map (removeTag tag) := by
  intro l
  induction l with
  | nil => intro _; rfl
  | cons r rs ih =>
    intro hnodup
    have hid : r.id ∉ rs.map (fun x => x.id) := (List.nodup_cons.mp hnodup).1
    have htail : (rs.map (fun x => x.id)).Nodup := (List.nodup_cons.mp hnodup).2
    have hU' : jsMapGet (deleteTagUpdates tag rs) r.id = none :=
      jsMapGet_none (fun u hu h => hid (h ▸ deleteTagUpdates_id_mem hu))
    have hUdef : deleteTagUpdates tag (r :: rs) =
        (if tag ∈ r.tags then [removeTag tag r] else []) ++ deleteTagUpdates tag rs := by
      by_cases h : tag ∈ r.tags <;> simp [deleteTagUpdates, List.filterMap_cons, h]
    have htailGet : ∀ x ∈ rs, jsMapGet (deleteTagUpdates tag (r :: rs)) x.id =
        jsMapGet (deleteTagUpdates tag rs) x.id := by
      intro x hx
      have hne : r.id ≠ x.id := fun he => hid (he ▸ List.mem_map.mpr ⟨x, hx, rfl⟩)
      rw [hUdef]
      by_cases h : tag ∈ r.tags
      · rw [if_pos h, List.singleton_append, jsMapGet_cons_ne]
        exact fun he => hne he
      · rw [if_neg h, List.nil_append]
    have hhead : jsMapGet (deleteTagUpdates tag (r :: rs)) r.id =
        if tag ∈ r.tags then some (removeTag tag r) else none := by
      rw [hUdef]
      by_cases h : tag ∈ r.tags
      · rw [if_pos h, if_pos h, List.singleton_append, jsMapGet, hU']
        simp [removeTag]
      · rw [if_neg h, if_neg h, List.nil_append]
        exact hU'
    have hr_eq : (jsMapGet (deleteTagUpdates tag (r :: rs)) r.id).getD r = removeTag tag r := by
      rw [hhead]
      by_cases h : tag ∈ r.tags
      · rw [if_pos h]
        rfl
      · rw [if_neg h]
        have htags : r.tags.filter (fun t => decide (t ≠ tag)) = r.tags :=
          List.filter_eq_self.mpr (fun t ht => by
            simp only [decide_eq_true_eq]
            exact fun he => h (he ▸ ht))
        show r = removeTag tag r
        unfold removeTag
        rw [htags]
    calc applyBatchUpdate (r :: rs) (deleteTagUpdates tag (r :: rs))
        = (jsMapGet (deleteTagUpdates tag (r :: rs)) r.id).getD r ::
            rs.map (fun x => (jsMapGet (deleteTagUpdates tag (r :: rs)) x.id).getD x) := rfl
      _ = removeTag tag r :: rs.map (fun x => (jsMapGet (deleteTagUpdates tag rs) x.id).getD x) := by
          rw [hr_eq]
          congr 1
          exact List.map_congr_left (fun x hx => by rw [htailGet x hx])
      _ = removeTag tag r :: applyBatchUpdate rs (deleteTagUpdates tag rs) := rfl
      _ = removeTag tag r :: rs.map (removeTag tag) := by rw [ih htail]
      _ = (r :: rs).map (removeTag tag) := rfl

theorem deleteTagUpdates_length (tag : String) (l : List Resource) :
    (deleteTagUpdates tag l).length = (l.filter (fun r => decide (tag ∈ r.tags))).length := by
  rw [deleteTagUpdates, filterMap_if_eq_map_filter, List.length_map]

theorem applyBatchUpdate_deleteTag_free (tag : String) (l : List Resource) :
    ∀ r2 ∈ applyBatchUpdate l (deleteTagUpdates tag l), tag ∉ r2.tags := by
  intro r2 hr2
  obtain ⟨r, hr, hval⟩ := List.mem_map.mp hr2
  cases hget : jsMapGet (deleteTagUpdates tag l) r.id with
  | some u =>
    rw [hget] at hval
    have : r2 = u := hval.symm
    subst this
    exact deleteTagUpdates_tag_free (jsMapGet_mem hget)
  | none =>
    rw [hget] at hval
    have hrr : r2 = r := hval.symm
    subst hrr
    intro htag
    have : ∃ u ∈ deleteTagUpdates tag l, u.id = r2.id := by
      refine ⟨removeTag tag r2, ?_, rfl⟩
      exact List.mem_filterMap.mpr ⟨r2, hr, by rw [if_pos htag]⟩
    obtain ⟨x, hx⟩ := jsMapGet_isSome this
    rw [hget] at hx
    exact absurd hx (by simp)

/-- C8: `Delete(tag)` removes `tag` from every resource containing it
(no deduplication), the reported count is the number of affected resources,
and afterwards the derived `tagCounts` mapping has no entry for `tag`. -/
theorem deleteTag_spec (tag : String) (l : List Resource) :
    (deleteTagUpdates tag l).length = (l.filter (fun r => decide (tag ∈ r.tags))).length ∧
    (∀ u ∈ deleteTagUpdates tag l, tag ∉ u.tags) ∧
    (∀ r2 ∈ applyBatchUpdate l (deleteTagUpdates tag l), tag ∉ r2.tags) ∧
    hasTagEntry (applyBatchUpdate l (deleteTagUpdates tag l)) tag = false ∧
    ((l.map (fun r => r.id)).Nodup →
      applyBatchUpdate l (deleteTagUpdates tag l) = l.map (removeTag tag)) := by
  refine ⟨deleteTagUpdates_length tag l, fun u hu => deleteTagUpdates_tag_free hu,
    applyBatchUpdate_deleteTag_free tag l, ?_, applyBatchUpdate_deleteTag_nodup tag l⟩
  rw [hasTagEntry, decide_eq_false_iff_not]
  intro hmem
  obtain ⟨r2, hr2, htag⟩ := mem_rawTags.mp hmem
  exact applyBatchUpdate_deleteTag_free tag l r2 hr2 htag

/-- Witness for C8: deleting `"exam"` from a concrete two-resource catalog
with distinct ids, instantiating the theorem's unique-id hypothesis. -/
theorem deleteTag_spec_witness :
    ([({ id := "1", tags := ["exam", "hw"] } : Resource),
        { id := "2", tags := ["hw"] }].map (fun r => r.id)).Nodup ∧
    applyBatchUpdate
        [({ id := "1", tags := ["exam", "hw"] } : Resource), { id := "2", tags := ["hw"] }]
        (deleteTagUpdates "exam"
          [({ id := "1", tags := ["exam", "hw"] } : Resource), { id := "2", tags := ["hw"] }]) =
      [({ id := "1", tags := ["exam", "hw"] } : Resource),
        { id := "2", tags := ["hw"] }].map (removeTag "exam") :=
  ⟨by decide,
    (deleteTag_spec "exam"
      [({ id := "1", tags := ["exam", "hw"] } : Resource), { id := "2", tags := ["hw"] }]).2.2.2.2
      (by decide)⟩

theorem mem_jsSetDedup {t : String} : ∀ {l : List String}, t ∈ jsSetDedup l ↔ t ∈ l
  | [] => Iff.rfl
  | x :: xs => by
    by_cases h : t = x <;>
      simp [jsSetDedup, List.mem_filter, h, mem_jsSetDedup (l := xs)]

theorem jsSetDedup_nodup : ∀ l : List String, (jsSetDedup l).Nodup
  | [] => List.nodup_nil
  | x :: xs => by
    rw [jsSetDedup, List.nodup_cons]
    refine ⟨fun hmem => ?_, (jsSetDedup_nodup xs).filter _⟩
    have := (List.mem_filter.mp hmem).2
    simp at this

theorem uniqueTags_sorted (l : List Resource) : List.Sorted (· ≤ ·) (uniqueTags l) :=
  List.sorted_insertionSort (· ≤ ·) _

theorem uniqueTags_nodup (l : List Resource) : (uniqueTags l).Nodup :=
  ((List.perm_insertionSort (· ≤ ·) _).nodup_iff).mpr (jsSetDedup_nodup _)

theorem mem_uniqueTags {t : String} {l : List Resource} :
    t ∈ uniqueTags l ↔ ∃ r ∈ l, t ∈ r.tags := by
  rw [uniqueTags, (List.perm_insertionSort (· ≤ ·) _).mem_iff, mem_jsSetDedup, mem_rawTags]

theorem rawTags_count_of_nodup {t : String} :
    ∀ l : List Resource, (∀ r ∈ l, r.tags.Nodup) →
      (rawTags l).count t = (l.filter (fun r => decide (t ∈ r.tags))).length := by
  intro l
  induction l with
  | nil => intro _; rfl
  | cons r rs ih =>
    intro h
    have hr : r.tags.Nodup := h r (List.mem_cons_self r rs)
    have hrs := ih (fun x hx => h x (List.mem_cons_of_mem _ hx))
    by_cases hm : t ∈ r.tags
    · have : r.tags.count t = 1 := List.count_eq_one_of_mem hr hm
      simp [rawTags, List.count_append, List.filter_cons, hm, this, hrs, Nat.add_comm]
    · have : r.tags.count t = 0 := List.count_eq_zero.mpr hm
      simp [rawTags, List.count_append, List.filter_cons, hm, this, hrs]

/-- C9 (amended): `uniqueTags` is the sorted (case-sensitive) list of the
distinct tags occurring in some resource; `tagCounts` maps each tag to its
total number of occurrences across all tag lists, which equals the number of
resources containing it whenever no resource repeats a tag inside its own
list. -/
theorem tagRegistry_derived_views (l : List Resource) :
    List.Sorted (· ≤ ·) (uniqueTags l) ∧
    (uniqueTags l).Nodup ∧
    (∀ t, t ∈ uniqueTags l ↔ ∃ r ∈ l, t ∈ r.tags) ∧
    (∀ t, tagCounts l t = (rawTags l).count t) ∧
    ((∀ r ∈ l, r.tags.Nodup) →
      ∀ t, tagCounts l t = (l.filter (fun r => decide (t ∈ r.tags))).length) :=
  ⟨uniqueTags_sorted l, uniqueTags_nodup l, fun _ => mem_uniqueTags, fun _ => rfl,
    fun h _ => rawTags_count_of_nodup l h⟩

/-- Counterexample for C9 as stated: a resource whose tag list repeats `"a"`
contributes 2 to `tagCounts["a"]`, while only 1 resource contains `"a"`. -/
theorem tagCounts_counts_occurrences_not_resources :
    tagCounts [{ tags := ["a", "a"] }] "a" = 2 ∧
    ([({ tags := ["a", "a"] } : Resource)].filter
        (fun r => decide ("a" ∈ r.tags))).length = 1 ∧
    (2 : Nat) ≠ 1 :=
  ⟨by decide, by decide, by decide⟩

/-- Witness for C9: on a concrete duplicate-free catalog the occurrence count
agrees with the resource count, instantiating the theorem. -/
theorem tagRegistry_derived_views_witness :
    (∀ r ∈ [({ tags := ["b", "a"] } : Resource), { tags := ["a"] }], r.tags.Nodup) ∧
    tagCounts [({ tags := ["b", "a"] } : Resource), { tags := ["a"] }] "a" =
      ([({ tags := ["b", "a"] } : Resource), { tags := ["a"] }].filter
        (fun r => decide ("a" ∈ r.tags))).length :=
  ⟨by decide,
    (tagRegistry_derived_views [({ tags := ["b", "a"] } : Resource), { tags := ["a"] }]).2.2.2.2
      (by decide) "a"⟩

theorem renameTagUpdates_mem_tags {old cur : String} {l : List Resource} {u : Resource}
    (h1 : jsTrim cur ≠ "") (h2 : cur ≠ old) (hu : u ∈ renameTagUpdates old cur l) :
    jsTrim cur ∈ u.tags ∧ u.tags.count (jsTrim cur) = 1 ∧ u.tags.Nodup := by
  rw [renameTagUpdates, if_neg (by rintro (h | h) <;> [exact h1 h; exact h2 h])] at hu
  obtain ⟨r, hr, hru⟩ := List.mem_filterMap.mp hu
  by_cases hmem : old ∈ r.tags
  · rw [if_pos hmem] at hru
    have hue : u = applyRename old (jsTrim cur) r := (Option.some_inj.mp hru).symm
    subst hue
    have htag : jsTrim cur ∈ (applyRename old (jsTrim cur) r).tags := by
      rw [applyRename]
      exact mem_jsSetDedup.mpr (List.mem_map.mpr ⟨old, hmem, by simp⟩)
    have hnodup : (applyRename old (jsTrim cur) r).tags.Nodup := jsSetDedup_nodup _
    exact ⟨htag, List.count_eq_one_of_mem hnodup htag, hnodup⟩
  · rw [if_neg hmem] at hru
    exact absurd hru (by simp)

/-- C3: `Rename(old, new)` issues no updates when the new name is
empty/whitespace or equals the old one; otherwise every resource containing
`old` gets `old` replaced by the trimmed new name and its tag list
deduplicated (so a resource already carrying both ends up with a single copy
of the new name), and no other resource is touched.  The spec scenario —
renaming `"exam-prep"` to `"exam"` on 3 resources tagged `"exam-prep"`, one
of which already has `"exam"` — leaves all 3 with `"exam"` exactly once,
both in the submitted updates and in the catalog after the batch update. -/
theorem renameTag_spec :
    (∀ old cur (l : List Resource), (jsTrim cur = "" ∨ cur = old) →
      renameTagUpdates old cur l = []) ∧
    (∀ old cur (l : List Resource), jsTrim cur ≠ "" → cur ≠ old →
      renameTagUpdates old cur l =
        (l.filter (fun r => decide (old ∈ r.tags))).map (applyRename old (jsTrim cur)) ∧
      ∀ u ∈ renameTagUpdates old cur l,
        jsTrim cur ∈ u.tags ∧ u.tags.count (jsTrim cur) = 1 ∧ u.tags.Nodup) ∧
    ((renameTagUpdates "exam-prep" "exam"
        [({ id := "1", tags := ["exam-prep"] } : Resource),
          { id := "2", tags := ["exam-prep", "exam"] },
          { id := "3", tags := ["exam-prep", "math"] }]).map (fun u => u.tags.count "exam") =
        [1, 1, 1] ∧
      (applyBatchUpdate
          [({ id := "1", tags := ["exam-prep"] } : Resource),
            { id := "2", tags := ["exam-prep", "exam"] },
            { id := "3", tags := ["exam-prep", "math"] }]
          (renameTagUpdates "exam-prep" "exam"
            [({ id := "1", tags := ["exam-prep"] } : Resource),
              { id := "2", tags := ["exam-prep", "exam"] },
              { id := "3", tags := ["exam-prep", "math"] }])).map
          (fun r => r.tags.count "exam") = [1, 1, 1]) := by
  refine ⟨?_, ?_, by decide, by decide⟩
  · intro old cur l h
    rw [renameTagUpdates, if_pos h]
  · intro old cur l h1 h2
    constructor
    · rw [renameTagUpdates, if_neg (by rintro (h | h) <;> [exact h1 h; exact h2 h])]
      exact filterMap_if_eq_map_filter (fun r => old ∈ r.tags) _ l
    · exact fun u hu => renameTagUpdates_mem_tags h1 h2 hu

/-- Witness for C3: the no-op case at `Rename("exam", "exam")` and the
update-shape case at `Rename("exam-prep", "exam")`, on concrete catalogs. -/
theorem renameTag_spec_witness :
    renameTagUpdates "exam" "exam" [({ tags := ["exam"] } : Resource)] = [] ∧
    renameTagUpdates "exam-prep" "exam" [({ tags := ["exam-prep"] } : Resource)] =
      ([({ tags := ["exam-prep"] } : Resource)].filter
        (fun r => decide ("exam-prep" ∈ r.tags))).map (applyRename "exam-prep" (jsTrim "exam")) :=
  ⟨renameTag_spec.1 "exam" "exam" _ (Or.inr rfl),
    (renameTag_spec.2.1 "exam-prep" "exam" _ (by decide) (by decide)).1⟩

/-! ### Preview Resolver (resource viewer modal, lines 212–343) -/

/-- Result of parsing a URL: the pieces the resolver reads
(`hostname`, `pathname`, `searchParams` raw query). -/
structure JsURL where
  hostname : String
  pathname : String
  search : String
deriving DecidableEq

/-- Strip the first of `pats` that `l` starts with (helper for the
host-pattern regexes). -/
def dropFirstMatch (pats : List (List Char)) (l : List Char) : List Char :=
  match pats.find? (fun p => startsWithList l p) with
  | some p => l.drop p.length
  | none => l

/-- Semantics of the anchored host regexes
`^(https?:\/\/)?(www\.)?(<host>)\//i`: after lower-casing, optionally strip a
scheme, optionally strip `www.`, then require one of `hosts` followed by
`/`. -/
def matchesHostPattern (hosts : List String) (s : String) : Bool :=
  let t := s.data.map Char.toLower
  let t1 := dropFirstMatch ["https://".data, "http://".data] t
  let t2 := dropFirstMatch ["www.".data] t1
  hosts.any (fun h => startsWithList t2 (h.data ++ ['/']))

/-- Predicate `isYouTubeUrl`: `/^(https?:\/\/)?(www\.)?(youtube\.com|youtu\.be)\//i`. -/
def isYouTubeUrl (url : String) : Bool :=
  matchesHostPattern ["youtube.com", "youtu.be"] url

/-- Predicate `isVimeoUrl`: `/^(https?:\/\/)?(www\.)?vimeo\.com\//i`. -/
def isVimeoUrl (url : String) : Bool :=
  matchesHostPattern ["vimeo.com"] url

/-- Extension test behind the `isProbablyOfficeDoc` / `isPdf` / `isImage` /
`isVideoFile` regexes: strip the query string (`url.split("?")[0]`), then
check case-insensitively for `.<ext>` at the end. -/
def hasExtensionOf (exts : List String) (url : String) : Bool :=
  let base := ((splitChar '?' url.data).headD []).map Char.toLower
  exts.any (fun e => endsWithList base ('.' :: e.data))

def isProbablyOfficeDoc (url : String) : Bool :=
  hasExtensionOf ["doc", "docx", "ppt", "pptx", "xls", "xlsx"] url

def isPdf (url : String) : Bool :=
  hasExtensionOf ["pdf"] url

def isImage (url : String) : Bool :=
  hasExtensionOf ["png", "jpg", "jpeg", "gif", "webp", "svg"] url

def isVideoFile (url : String) : Bool :=
  hasExtensionOf ["mp4", "webm", "ogg", "mov", "m4v"] url

/-- Model of the WHATWG `URL` constructor, restricted to the absolute
`http(s)` URLs the resolver deals with: any other input (no scheme — e.g.
`youtu.be/abc` — or another scheme) is a parse failure, modelling the thrown
`TypeError` the callers catch.  The scheme is matched case-insensitively; the
authority runs to the first `/`, `?` or `#`; userinfo and port are stripped
from the hostname, which is lower-cased; an empty path is normalised to `/`;
the query runs from `?` to `#`.  (Path normalisation and percent-decoding
are not modelled; the embedded callers never depend on them.) -/
def parseURL (s : String) : Option JsURL :=
  let cs := s.data
  let lower := cs.map Char.toLower
  let rest? : Option (List Char) :=
    if startsWithList lower "https://".data then some (cs.drop 8)
    else if startsWithList lower "http://".data then some (cs.drop 7)
    else none
  match rest? with
  | none => none
  | some rest =>
    let authority := rest.takeWhile (fun c => !(c = '/' || c = '?' || c = '#'))
    let tail := rest.drop authority.length
    let hostPort := (splitChar '@' authority).getLastD []
    let host := (hostPort.takeWhile (fun c => c ≠ ':')).map Char.toLower
    if host = [] then none
    else
      let pathRaw := tail.takeWhile (fun c => !(c = '?' || c = '#'))
      let pathname := if pathRaw = [] then ['/'] else pathRaw
      let afterPath := tail.drop pathRaw.length
      let search :=
        match afterPath with
        | c :: rest2 => if c = '?' then rest2.takeWhile (fun d => d ≠ '#') else []
        | [] => []
      some ⟨String.mk host, String.mk pathname, String.mk search⟩

/-- Split a query pair at the first `=`: name and optional value. -/
def breakAtEq : List Char → List Char × Option (List Char)
  | [] => ([], none)
  | x :: xs =>
    if x = '=' then ([], some xs)
    else
      let (a, b) := breakAtEq xs
      (x :: a, b)

/-- Model of `URLSearchParams.get(key)`: split the query on `&`, drop empty
pairs, return the value of the first pair whose name is `key` (`""` when the
pair has no `=`).  Percent-decoding is not modelled; the embedded callers
only use plain video ids. -/
def jsSearchParamGet (search key : String) : Option String :=
  let pairs := ((splitChar '&' search.data).filter (fun p => decide (p ≠ [])))
  match pairs.find? (fun p => decide ((breakAtEq p).1 = key.data)) with
  | some p => some (String.mk (((breakAtEq p).2).getD []))
  | none => none

/-- Function `getYouTubeEmbedUrl`: `youtu.be/<id>` and `watch?v=<id>` are rewritten to
`https://www.youtube.com/embed/<id>`; URLs whose path contains `/embed/` are
returned unchanged; anything else (including URL parse failures) yields
nothing. -/
def getYouTubeEmbedUrl (url : String) : Option String :=
  match parseURL url with
  | none => none
  | some u =>
    if jsIncludes u.hostname "youtu.be" then
      let id := jsReplaceFirst u.pathname "/" ""
      if id = "" then none else some ("https://www.youtube.com/embed/" ++ id)
    else
      match jsSearchParamGet u.search "v" with
      | some id =>
        if id ≠ "" then some ("https://www.youtube.com/embed/" ++ id)
        else if jsIncludes u.pathname "/embed/" then some url
        else none
      | none =>
        if jsIncludes u.pathname "/embed/" then some url
        else none

/-- Function `getVimeoEmbedUrl`: first non-empty path segment becomes the player id;
parse failure yields nothing. -/
def getVimeoEmbedUrl (url : String) : Option String :=
  match parseURL url with
  | none => none
  | some u =>
    match (splitChar '/' u.pathname.data).filter (fun p => decide (p ≠ [])) with
    | [] => none
    | id :: _ => some ("https://player.vimeo.com/video/" ++ String.mk id)

/-- The `d`-segment id extraction shared by the Google preview rewrites:
`parts = pathname.split("/")`, `idx = parts.findIndex(p => p === "d")`,
`id = idx >= 0 ? parts[idx+1] : null`, falsy ids rejected. -/
def idAfterD (pathname : String) : Option String :=
  let parts := (splitChar '/' pathname.data).map String.mk
  match parts.findIdx? (fun p => p = "d") with
  | some i =>
    match parts[i + 1]? with
    | some id => if id = "" then none else some id
    | none => none
  | none => none

/-- Function `getGoogleDrivePreviewUrl`: rewrite Drive file links and Docs/Slides/
Sheets links to their `/preview` form; parse failure yields nothing. -/
def getGoogleDrivePreviewUrl (url : String) : Option String :=
  match parseURL url with
  | none => none
  | some u =>
    if jsIncludes u.hostname "drive.google.com" && jsIncludes u.pathname "/file/d/" then
      match idAfterD u.pathname with
      | some id => some ("https://drive.google.com/file/d/" ++ id ++ "/preview")
      | none => none
    else if jsIncludes u.hostname "docs.google.com" then
      if jsIncludes u.pathname "/document/d/" || jsIncludes u.pathname "/presentation/d/" ||
          jsIncludes u.pathname "/spreadsheets/d/" then
        match idAfterD u.pathname with
        | some id =>
          if jsIncludes u.pathname "/document/d/" then
            some ("https://docs.google.com/document/d/" ++ id ++ "/preview")
          else if jsIncludes u.pathname "/presentation/d/" then
            some ("https://docs.google.com/presentation/d/" ++ id ++ "/preview")
          else if jsIncludes u.pathname "/spreadsheets/d/" then
            some ("https://docs.google.com/spreadsheets/d/" ++ id ++ "/preview")
          else none
        | none => none
      else none
    else none

/-- Hex digit (uppercase) for percent-encoding. -/
def hexDigitChar (k : Nat) : Char :=
  if k < 10 then Char.ofNat (48 + k) else Char.ofNat (55 + k)

/-- UTF-8 bytes of a character (as `Nat`s below 256). -/
def utf8Bytes (c : Char) : List Nat :=
  let n := c.toNat
  if n < 128 then [n]
  else if n < 2048 then [192 + n / 64, 128 + n % 64]
  else if n < 65536 then [224 + n / 4096, 128 + (n / 64) % 64, 128 + n % 64]
  else [240 + n / 262144, 128 + (n / 4096) % 64, 128 + (n / 64) % 64, 128 + n % 64]

/-- The characters `encodeURIComponent` leaves unescaped. -/
def uriUnescaped (c : Char) : Bool :=
  c.isAlphanum || c ∈ ['-', '_', '.', '!', '~', '*', Char.ofNat 39, '(', ')']

/-- Model of `encodeURIComponent`: unreserved characters pass through, all
others are percent-encoded byte-wise in UTF-8 with uppercase hex. -/
def encodeURIComponent (s : String) : String :=
  String.mk (s.data.foldr
    (fun c acc =>
      if uriUnescaped c then c :: acc
      else (utf8Bytes c).foldr
        (fun b acc2 => '%' :: hexDigitChar (b / 16) :: hexDigitChar (b % 16) :: acc2) acc)
    [])

/-- Function `getOfficeViewerUrl`: wrap in the Office Online embed viewer. -/
def getOfficeViewerUrl (fileUrl : String) : String :=
  "https://view.officeapps.live.com/op/embed.aspx?src=" ++ encodeURIComponent fileUrl

/-- The `kind` discriminant of the resolver's result. -/
inductive PreviewKind where
  | none | iframe | image | video | pdf | link
deriving DecidableEq

/-- The resolver's result: a kind plus the resolved URL. -/
structure PreviewResult where
  kind : PreviewKind
  url : String
deriving DecidableEq

/-- The candidate selection of `getBestPreviewUrl`:
`(resource.url || "").trim() || (resource.external_url || "").trim() || ""`. -/
def candidateOf (r : Resource) : String :=
  let primary := jsTrim r.url
  let external := jsTrim r.external_url
  if primary ≠ "" then primary else external

/-- Function `getBestPreviewUrl`: the first-match-wins classification cascade —
YouTube embed, Vimeo embed, Google preview, Office viewer, direct PDF,
direct image, direct video file, plain link. -/
def getBestPreviewUrl (r : Resource) : PreviewResult :=
  let candidate := candidateOf r
  if candidate = "" then ⟨.none, ""⟩
  else
    match (if isYouTubeUrl candidate then getYouTubeEmbedUrl candidate else none) with
    | some e => ⟨.iframe, e⟩
    | none =>
      match (if isVimeoUrl candidate then getVimeoEmbedUrl candidate else none) with
      | some e => ⟨.iframe, e⟩
      | none =>
        match getGoogleDrivePreviewUrl candidate with
        | some g => ⟨.iframe, g⟩
        | none =>
          if isProbablyOfficeDoc candidate then ⟨.iframe, getOfficeViewerUrl candidate⟩
          else if isPdf candidate then ⟨.pdf, candidate⟩
          else if isImage candidate then ⟨.image, candidate⟩
          else if isVideoFile candidate then ⟨.video, candidate⟩
          else ⟨.link, candidate⟩

theorem isYouTubeUrl_empty_false : isYouTubeUrl "" = false := by decide

theorem isVimeoUrl_empty_false : isVimeoUrl "" = false := by decide

/-- Shared fall-through lemma: when the candidate is non-empty and every
classification rule of the cascade fails, the resolver returns
`{link, candidate}`. -/
theorem getBestPreviewUrl_link_of {r : Resource} (hc : candidateOf r ≠ "")
    (hyt : isYouTubeUrl (candidateOf r) = true → getYouTubeEmbedUrl (candidateOf r) = none)
    (hvm : isVimeoUrl (candidateOf r) = true → getVimeoEmbedUrl (candidateOf r) = none)
    (hg : getGoogleDrivePreviewUrl (candidateOf r) = none)
    (hoff : isProbablyOfficeDoc (candidateOf r) = false)
    (hpdf : isPdf (candidateOf r) = false)
    (himg : isImage (candidateOf r) = false)
    (hvid : isVideoFile (candidateOf r) = false) :
    getBestPreviewUrl r = ⟨.link, candidateOf r⟩ := by
  have h1 : (if isYouTubeUrl (candidateOf r) then getYouTubeEmbedUrl (candidateOf r)
      else none) = none := by
    cases h : isYouTubeUrl (candidateOf r) with
    | false => simp
    | true => simp [hyt h]
  have h2 : (if isVimeoUrl (candidateOf r) then getVimeoEmbedUrl (candidateOf r)
      else none) = none := by
    cases h : isVimeoUrl (candidateOf r) with
    | false => simp
    | true => simp [hvm h]
  simp only [getBestPreviewUrl]
  rw [if_neg hc, h1, h2, hg]
  simp [hoff, hpdf, himg, hvid]

/-- Shared success lemma: when the candidate matches the YouTube pattern and
the embed rewrite succeeds, the resolver returns `{iframe, embed}`. -/
theorem getBestPreviewUrl_iframe_yt {r : Resource} {e : String}
    (hyt : isYouTubeUrl (candidateOf r) = true)
    (he : getYouTubeEmbedUrl (candidateOf r) = some e) :
    getBestPreviewUrl r = ⟨.iframe, e⟩ := by
  have hc : candidateOf r ≠ "" := by
    intro h0
    rw [h0] at hyt
    exact absurd hyt (by decide)
  simp only [getBestPreviewUrl]
  rw [if_neg hc]
  simp [hyt, he]

/-- C2: The Preview Resolver is total: every resource yields one of the
six kinds with a resolved URL; with both locations blank it yields `{none}`;
and a non-empty candidate matched by no classification rule falls through to
`{link, candidate}`. -/
theorem previewResolver_total_spec :
    (∀ r : Resource, (getBestPreviewUrl r).kind ∈
      [PreviewKind.none, .iframe, .image, .video, .pdf, .link]) ∧
    (∀ r : Resource, jsTrim r.url = "" → jsTrim r.external_url = "" →
      getBestPreviewUrl r = ⟨.none, ""⟩) ∧
    (∀ r : Resource, candidateOf r ≠ "" →
      (isYouTubeUrl (candidateOf r) = true → getYouTubeEmbedUrl (candidateOf r) = none) →
      (isVimeoUrl (candidateOf r) = true → getVimeoEmbedUrl (candidateOf r) = none) →
      getGoogleDrivePreviewUrl (candidateOf r) = none →
      isProbablyOfficeDoc (candidateOf r) = false →
      isPdf (candidateOf r) = false →
      isImage (candidateOf r) = false →
      isVideoFile (candidateOf r) = false →
      getBestPreviewUrl r = ⟨.link, candidateOf r⟩) := by
  refine ⟨?_, ?_, fun r hc hyt hvm hg hoff hpdf himg hvid =>
    getBestPreviewUrl_link_of hc hyt hvm hg hoff hpdf himg hvid⟩
  · intro r
    cases h : getBestPreviewUrl r with
    | mk k u => cases k <;> simp
  · intro r hu he
    have hcand : candidateOf r = "" := by
      rw [candidateOf, hu, he]
      simp
    simp only [getBestPreviewUrl]
    rw [if_pos hcand]

/-- Witness for C2: the blank resource resolves to `{none}`, and the spec
scenario `https://example.edu` (matched by no rule) resolves to `{link}`. -/
theorem previewResolver_total_spec_witness :
    getBestPreviewUrl {} = ⟨.none, ""⟩ ∧
    getBestPreviewUrl { url := "https://example.edu" } = ⟨.link, "https://example.edu"⟩ :=
  ⟨previewResolver_total_spec.2.1 {} (by decide) (by decide),
    (previewResolver_total_spec.2.2 { url := "https://example.edu" } (by decide) (by decide)
      (by decide) (by decide) (by decide) (by decide) (by decide) (by decide)).trans
      (by decide)⟩

theorem getYouTubeEmbedUrl_short {c : String} {u : JsURL}
    (hp : parseURL c = some u) (hh : jsIncludes u.hostname "youtu.be" = true)
    (hid : jsReplaceFirst u.pathname "/" "" ≠ "") :
    getYouTubeEmbedUrl c =
      some ("https://www.youtube.com/embed/" ++ jsReplaceFirst u.pathname "/" "") := by
  simp [getYouTubeEmbedUrl, hp, hh, hid]

theorem getYouTubeEmbedUrl_watch {c id : String} {u : JsURL}
    (hp : parseURL c = some u) (hh : jsIncludes u.hostname "youtu.be" = false)
    (hv : jsSearchParamGet u.search "v" = some id) (hid : id ≠ "") :
    getYouTubeEmbedUrl c = some ("https://www.youtube.com/embed/" ++ id) := by
  simp [getYouTubeEmbedUrl, hp, hh, hv, hid]

theorem getYouTubeEmbedUrl_embed_path {c : String} {u : JsURL}
    (hp : parseURL c = some u) (hh : jsIncludes u.hostname "youtu.be" = false)
    (hv : jsSearchParamGet u.search "v" = none ∨ jsSearchParamGet u.search "v" = some "")
    (hemb : jsIncludes u.pathname "/embed/" = true) :
    getYouTubeEmbedUrl c = some c := by
  rcases hv with hv | hv <;> simp [getYouTubeEmbedUrl, hp, hh, hv, hemb]

/-- C4 (amended): A candidate parsing with a `youtu.be` host, or with a
`watch?v=<id>` query, is resolved to the canonical
`https://www.youtube.com/embed/<id>` with kind `iframe` — in particular
`https://youtu.be/abc123` yields
`{iframe, https://www.youtube.com/embed/abc123}` — while a candidate whose
path already contains `/embed/` is returned unchanged (kind `iframe`), not
canonicalised to the `www.youtube.com` form. -/
theorem youtubeEmbed_spec :
    (∀ (r : Resource) (u : JsURL),
      isYouTubeUrl (candidateOf r) = true →
      parseURL (candidateOf r) = some u →
      ((jsIncludes u.hostname "youtu.be" = true →
        jsReplaceFirst u.pathname "/" "" ≠ "" →
        getBestPreviewUrl r =
          ⟨.iframe, "https://www.youtube.com/embed/" ++ jsReplaceFirst u.pathname "/" ""⟩) ∧
      (∀ id, jsIncludes u.hostname "youtu.be" = false →
        jsSearchParamGet u.search "v" = some id → id ≠ "" →
        getBestPreviewUrl r = ⟨.iframe, "https://www.youtube.com/embed/" ++ id⟩) ∧
      (jsIncludes u.hostname "youtu.be" = false →
        (jsSearchParamGet u.search "v" = none ∨ jsSearchParamGet u.search "v" = some "") →
        jsIncludes u.pathname "/embed/" = true →
        getBestPreviewUrl r = ⟨.iframe, candidateOf r⟩))) ∧
    getBestPreviewUrl { url := "https://youtu.be/abc123" } =
      ⟨.iframe, "https://www.youtube.com/embed/abc123"⟩ := by
  refine ⟨fun r u hyt hp => ⟨?_, ?_, ?_⟩, by decide⟩
  · intro hh hid
    exact getBestPreviewUrl_iframe_yt hyt (getYouTubeEmbedUrl_short hp hh hid)
  · intro id hh hv hid
    exact getBestPreviewUrl_iframe_yt hyt (getYouTubeEmbedUrl_watch hp hh hv hid)
  · intro hh hv hemb
    exact getBestPreviewUrl_iframe_yt hyt (getYouTubeEmbedUrl_embed_path hp hh hv hemb)

/-- Witness for C4: the `watch?v=` rewrite instantiated at a concrete URL. -/
theorem youtubeEmbed_spec_witness :
    getBestPreviewUrl { url := "https://www.youtube.com/watch?v=abc" } =
      ⟨.iframe, "https://www.youtube.com/embed/abc"⟩ :=
  (youtubeEmbed_spec.1 { url := "https://www.youtube.com/watch?v=abc" }
      ⟨"www.youtube.com", "/watch", "v=abc"⟩ (by decide) (by decide)).2.1 "abc"
    (by decide) (by decide) (by decide)

/-- Counterexample for C4 as stated: a candidate matching the YouTube embed
pattern is returned verbatim (`https://youtube.com/embed/abc123`), not as the
canonical `https://www.youtube.com/embed/abc123` the claim promises for every
matching candidate. -/
theorem youtubeEmbed_counterexample :
    getBestPreviewUrl { url := "https://youtube.com/embed/abc123" } =
      ⟨.iframe, "https://youtube.com/embed/abc123"⟩ ∧
    (⟨.iframe, "https://youtube.com/embed/abc123"⟩ : PreviewResult) ≠
      ⟨.iframe, "https://www.youtube.com/embed/abc123"⟩ :=
  ⟨by decide, by decide⟩

/-- C10 (amended): A candidate matching the YouTube/Vimeo host pattern
that fails to parse as an absolute URL gets no embed rewrite (the derivations
return nothing on parse failure) and falls through to the extension rules;
when no extension rule matches either — e.g. `youtu.be/abc123` — the result
is `{link, candidate}`.  (A candidate such as `youtu.be/file.pdf` is instead
classified by its extension; see the counterexample.) -/
theorem unparseableCandidate_spec :
    ∀ r : Resource,
      (isYouTubeUrl (candidateOf r) = true ∨ isVimeoUrl (candidateOf r) = true) →
      parseURL (candidateOf r) = none →
      isProbablyOfficeDoc (candidateOf r) = false →
      isPdf (candidateOf r) = false →
      isImage (candidateOf r) = false →
      isVideoFile (candidateOf r) = false →
      getBestPreviewUrl r = ⟨.link, candidateOf r⟩ := by
  intro r hpat hp hoff hpdf himg hvid
  have hc : candidateOf r ≠ "" := by
    intro h0
    rw [h0] at hpat
    rcases hpat with h | h
    · exact absurd h (by decide)
    · exact absurd h (by decide)
  refine getBestPreviewUrl_link_of hc (fun _ => ?_) (fun _ => ?_) ?_ hoff hpdf himg hvid
  · rw [getYouTubeEmbedUrl, hp]
  · rw [getVimeoEmbedUrl, hp]
  · rw [getGoogleDrivePreviewUrl, hp]

/-- Witness for C10: the scheme-less `youtu.be/abc123` resolves to `{link}`. -/
theorem unparseableCandidate_spec_witness :
    getBestPreviewUrl { url := "youtu.be/abc123" } = ⟨.link, "youtu.be/abc123"⟩ :=
  (unparseableCandidate_spec { url := "youtu.be/abc123" } (Or.inl (by decide)) (by decide)
      (by decide) (by decide) (by decide) (by decide)).trans (by decide)

/-- Counterexample for C10 as stated: `youtu.be/file.pdf` matches the YouTube
pattern and fails to parse, yet the resolver returns kind `pdf`, not the
`{link, candidate}` the claim promises for every such candidate. -/
theorem unparseableCandidate_counterexample :
    isYouTubeUrl "youtu.be/file.pdf" = true ∧
    parseURL "youtu.be/file.pdf" = none ∧
    getBestPreviewUrl { url := "youtu.be/file.pdf" } = ⟨.pdf, "youtu.be/file.pdf"⟩ ∧
    PreviewKind.pdf ≠ PreviewKind.link :=
  ⟨by decide, by decide, by decide, by decide⟩

/-! ### Admin Form Controller (`src/components/AdminConsole.tsx`,
lines 348–357, 512–523, 972 and 1054–1070) -/

/-- Predicate `allowsUploadOrLink`: VIDEO, DOC and PRESENTATION accept either an
upload or a pasted link. -/
def allowsUploadOrLink (t : ResourceType) : Bool :=
  decide (t = .VIDEO) || decide (t = .DOC) || decide (t = .PRESENTATION)

/-- Predicate `canUploadFile`: the render condition of the file-upload area
(`t === PDF || allowsUploadOrLink(t)`). -/
def canUploadFile (t : ResourceType) : Bool :=
  decide (t = .PDF) || allowsUploadOrLink t

/-- Predicate `requiresUrlOnly`: only LINK demands a primary URL. -/
def requiresUrlOnly (t : ResourceType) : Bool :=
  decide (t = .LINK)

/-- Function `getAcceptString`: the file-picker accept filter per type. -/
def getAcceptString (t : ResourceType) : String :=
  match t with
  | .PDF => ".pdf"
  | .IMAGE => "image/*"
  | .VIDEO => "video/*"
  | .DOC => ".doc,.docx,.txt"
  | .PRESENTATION => ".ppt,.pptx,.key,.pdf"
  | .SPREADSHEET => ".xls,.xlsx,.csv"
  | .CODE => ".js,.py,.cpp,.java,.html,.css,.ts,.sql"
  | .LINK => "*/*"

/-- The slice of the admin form state the submit gate reads: the selected
type, the primary URL field, whether a file is attached
(`selectedFile !== null`) and whether an existing resource is being edited
(`editingResourceId !== null`). -/
structure AdminFormState where
  type : ResourceType := .PDF
  url : String := ""
  hasSelectedFile : Bool := false
  isEditing : Bool := false

/-- The `disabled` predicate of the submit button (lines 1056–1070):
LINK needs a trimmed non-empty URL; upload-or-link types need a file, a URL
or an edit in progress; the remaining (upload-only) types need a file or an
edit in progress. -/
def submitDisabled (f : AdminFormState) : Bool :=
  let hasUrl := decide (jsTrim f.url ≠ "")
  if f.type = ResourceType.LINK then !hasUrl
  else if allowsUploadOrLink f.type then !f.hasSelectedFile && !hasUrl && !f.isEditing
  else !f.hasSelectedFile && !f.isEditing

/-- C6: Submission is enabled exactly when: the type is LINK and the URL
is (non-whitespace) non-empty; or the type allows upload-or-link and a file
is attached, a URL is provided, or an existing resource is being edited; or
the type is upload-only and a file is attached or an existing resource is
being edited.  In particular a LINK form with empty URL is disabled and
filling the URL enables it. -/
theorem submitGating_spec :
    (∀ f : AdminFormState,
      submitDisabled f = false ↔
        ((f.type = ResourceType.LINK ∧ jsTrim f.url ≠ "") ∨
          (allowsUploadOrLink f.type = true ∧
            (f.hasSelectedFile = true ∨ jsTrim f.url ≠ "" ∨ f.isEditing = true)) ∨
          (f.type ≠ ResourceType.LINK ∧ allowsUploadOrLink f.type = false ∧
            (f.hasSelectedFile = true ∨ f.isEditing = true)))) ∧
    submitDisabled { type := .LINK, url := "" } = true ∧
    submitDisabled { type := .LINK, url := "https://example.edu" } = false := by
  refine ⟨?_, by decide, by decide⟩
  rintro ⟨t, url, file, editing⟩
  by_cases h : jsTrim url = "" <;>
    cases t <;> cases file <;> cases editing <;>
      simp [submitDisabled, allowsUploadOrLink, h]

/-- C7 (code bug): The spec's requirement matrix says PDF, IMAGE,
SPREADSHEET and CODE all allow a file upload, and the code agrees everywhere
except in `canUploadFile`: the accept filters and helper texts define uploads
for IMAGE/SPREADSHEET/CODE and the submit gate demands a file for them (even
when a URL is typed), yet `canUploadFile` returns `false`, so the upload area
never renders and a new resource of these types can never satisfy the gate. -/
theorem uploadCapability_matrix_divergence :
    canUploadFile .PDF = true ∧
    canUploadFile .IMAGE = false ∧
    canUploadFile .SPREADSHEET = false ∧
    canUploadFile .CODE = false ∧
    getAcceptString .IMAGE = "image/*" ∧
    getAcceptString .SPREADSHEET = ".xls,.xlsx,.csv" ∧
    getAcceptString .CODE = ".js,.py,.cpp,.java,.html,.css,.ts,.sql" ∧
    submitDisabled { type := .IMAGE, url := "https://example.edu/x.png" } = true ∧
    submitDisabled { type := .SPREADSHEET } = true ∧
    submitDisabled { type := .CODE } = true := by
  refine ⟨by decide, by decide, by decide, by decide, by decide, by decide, by decide,
    by decide, by decide, by decide⟩

end SpartanHub
